import Mathlib

/-!
Verification of the gh-nx-labeler action (src/main.ts).

The development shallowly embeds the program's pure core and its
REST-call orchestration.  JavaScript `Set<string>` values are modelled
as insertion-ordered duplicate-free lists built with `addUniq`;
`Record<string, T>` values are modelled as association lists with
`lookupRecord`; JavaScript string interpolation of a possibly-undefined
value is modelled with `undefOr` (interpolating `undefined` prints the
text "undefined"); JavaScript truthiness of a looked-up string is
modelled with `truthyStr` (the empty string is falsy).  Thrown
exceptions are modelled with `JsResult`/`JsError`, and the unbounded
pagination loop of `fetchRepositoryLabels` is given explicit fuel, with
running out of fuel reported as the distinguished error `noFuel`.
REST traffic is reified as a trace of `RestCall` values.
-/

/-- Errors a run can raise: a thrown `TypeError` (indexing or iterating
`undefined`), or exhaustion of the pagination fuel (the while-loop in
`fetchRepositoryLabels` never terminating). -/
inductive JsError where
  | typeError
  | noFuel
deriving DecidableEq

/-- Result of a JavaScript computation: either a thrown error or a value.
A returned `undefined` is modelled separately, as `Option.none` inside the
value type where it can occur. -/
inductive JsResult (α : Type) where
  | thrown (e : JsError)
  | value (a : α)
deriving DecidableEq

/-- One REST call issued against the GitHub API, as recorded in a trace. -/
inductive RestCall where
  | listPRsForCommit (owner repo sha : String)
  | listLabels (owner repo : String) (page perPage : Nat)
  | createLabel (owner repo name color description : String)
  | addLabels (owner repo : String) (issueNumber : Nat) (labels : List String)
deriving DecidableEq

/-- The resolved PR context (`PRInfo` in src/main.ts). -/
structure PRInfo where
  owner : String
  repo : String
  number : Nat
deriving DecidableEq

/-- The parts of `github.context` the program reads: `context.issue`
(owner, repo, possibly-undefined number), `context.repo` and
`context.sha`. -/
structure Context where
  issueOwner : String
  issueRepo : String
  issueNumber : Option Nat
  repoOwner : String
  repoRepo : String
  sha : String
deriving DecidableEq

/-- One entry of the nx project catalog
(`readProjectsConfigurationFromProjectGraph(...).projects[p]`):
the project's name, its `projectType` and its declared tag list. -/
structure ProjectConfig where
  name : String
  projectType : String
  tags : List String
deriving DecidableEq

/-- A label-definition entry (`LabelPrefixDefinition` in src/main.ts). -/
structure LabelPrefixDefinition where
  color : String
  description : String
deriving DecidableEq

/-- JavaScript object indexing `m[k]` on a `Record`, modelled on an
association list: the value at the first matching key, if any. -/
def lookupRecord {α : Type} : List (String × α) → String → Option α
  | [], _ => none
  | (k2, v) :: rest, k => if k2 = k then some v else lookupRecord rest k

/-- Truthiness of `m[k]` when the record's values are strings: the key is
present and its value is not the empty string (`""` is falsy in JS). -/
def truthyStr : Option String → Bool
  | some s => s ≠ ""
  | none => false

/-- Truthiness of `ctx.issue.number`: a present, nonzero number
(`0` and `undefined` are both falsy in JS). -/
def truthyNum : Option Nat → Bool
  | some n => n ≠ 0
  | none => false

/-- String interpolation of a possibly-undefined value:
`undefined` interpolates as the text "undefined". -/
def undefOr : Option String → String
  | some s => s
  | none => "undefined"

/-- The model of `Set.add`: append the element unless it is already present
(JS sets are insertion-ordered and duplicate-free). -/
def addUniq (l : List String) (s : String) : List String :=
  if s ∈ l then l else l ++ [s]

/-- The model of `s.split(':')` over the character list: splitting at every ':'
occurrence, so that the result never is the empty list, the empty string
splits to `[""]`, and separators at the ends produce empty segments —
exactly JavaScript's `String.prototype.split` with a one-character
separator. -/
def splitColonChars : List Char → List (List Char)
  | [] => [[]]
  | c :: cs =>
    if c = ':' then [] :: splitColonChars cs
    else
      match splitColonChars cs with
      | [] => [[c]]
      | seg :: rest => (c :: seg) :: rest

/-- The model of `s.split(':')` as a list of strings. -/
def splitColon (s : String) : List String :=
  (splitColonChars s.data).map (fun cs => String.mk cs)

/-- The first component of `tag.split(':')`; `split` on a non-empty
separator never returns an empty array. -/
def firstSeg (s : String) : String := (splitColon s).headD ""

/-- The body of the per-tag loop of `collectAffectedTags`: destructure
`tag.split(':')` into its first two components; if the first indexes a
truthy abbreviation, re-emit the interpolation of the two components,
otherwise keep the tag verbatim. -/
def processTag (abbrevs : List (String × String)) (tag : String) : String :=
  if truthyStr (lookupRecord abbrevs (firstSeg tag)) then
    firstSeg tag ++ ":" ++ undefOr (splitColon tag)[1]?
  else tag

/-- The synthesized per-project tag
`` `${projectTypeAbbreviations[config.projectType]}:${config.name}` ``. -/
def synthTag (abbrevs : List (String × String)) (config : ProjectConfig) : String :=
  undefOr (lookupRecord abbrevs config.projectType) ++ ":" ++ config.name

/-- The `for (const project of affected)` loop of `collectAffectedTags`,
threading the accumulated tag set.  Indexing the catalog with an unknown
project yields `undefined`, and reading `.tags` off it throws. -/
def collectLoop (abbrevs : List (String × String))
    (configurations : List (String × ProjectConfig)) :
    List String → List String → JsResult (List String)
  | [], acc => .value acc
  | p :: rest, acc =>
    match lookupRecord configurations p with
    | none => .thrown .typeError
    | some config =>
      let acc1 := config.tags.foldl (fun l t => addUniq l (processTag abbrevs t)) acc
      collectLoop abbrevs configurations rest (addUniq acc1 (synthTag abbrevs config))

/-- The model of `collectAffectedTags` (src/main.ts:301-337).  When the affected list
is empty it executes a bare `return`, i.e. returns `undefined`, modelled
as `.value none`.  When the affected count equals the catalog size it
returns the singleton of the sentinel; otherwise it runs the per-project
loop. -/
def collectAffectedTags (sentinel : String) (affected : List String)
    (configurations : List (String × ProjectConfig))
    (abbrevs : List (String × String)) : JsResult (Option (List String)) :=
  if affected.length = 0 then .value none
  else if affected.length = configurations.length then .value (some [sentinel])
  else
    match collectLoop abbrevs configurations affected [] with
    | .thrown e => .thrown e
    | .value s => .value (some s)

/-- The model of `getPRInfo` (src/main.ts:256-271).  A truthy `context.issue.number`
resolves directly from the event; otherwise the associated-PR REST query
is issued and the first result's number is taken — indexing an empty
result array yields `undefined` and reading `.number` off it throws. -/
def getPRInfo (ctx : Context) (pulls : List Nat) :
    List RestCall × JsResult PRInfo :=
  if truthyNum ctx.issueNumber then
    ([], .value ⟨ctx.issueOwner, ctx.issueRepo, ctx.issueNumber.getD 0⟩)
  else
    ([RestCall.listPRsForCommit ctx.repoOwner ctx.repoRepo ctx.sha],
      match pulls with
      | [] => .thrown .typeError
      | n :: _ => .value ⟨ctx.repoOwner, ctx.repoRepo, n⟩)

/-- The `while (hasMorePages)` loop of `fetchRepositoryLabels`: request
the current page (page size 100), accumulate the returned label names,
and continue exactly when the page was full.  `pages` gives the label
names the API returns for each page number. -/
def fetchGo (owner repo : String) (pages : Nat → List String) :
    Nat → Nat → List String → List RestCall × JsResult (List String)
  | 0, _, _ => ([], .thrown .noFuel)
  | fuel + 1, page, acc =>
    let data := pages page
    let acc2 := data.foldl addUniq acc
    if data.length = 100 then
      let r2 := fetchGo owner repo pages fuel (page + 1) acc2
      (RestCall.listLabels owner repo page 100 :: r2.1, r2.2)
    else ([RestCall.listLabels owner repo page 100], .value acc2)

/-- The model of `fetchRepositoryLabels` (src/main.ts:339-358): it first resolves the
PR context itself (a second resolution within a run) and then pages
through the repository's labels starting at page 1. -/
def fetchRepositoryLabels (ctx : Context) (pulls : List Nat)
    (pages : Nat → List String) (fuel : Nat) :
    List RestCall × JsResult (List String) :=
  match getPRInfo ctx pulls with
  | (t, .thrown e) => (t, .thrown e)
  | (t, .value pr) =>
    let r := fetchGo pr.owner pr.repo pages fuel 1 []
    (t ++ r.1, r.2)

/-- The decision the body of `createMissingLabels` takes for one tag:
skip it when it is an existing label; otherwise create it exactly when
its text before the first ':' has a definition, with that definition's
color and description. -/
def createCallFor (existing : List String)
    (defs : List (String × LabelPrefixDefinition)) (owner repo tag : String) :
    Option RestCall :=
  if tag ∈ existing then none
  else
    match lookupRecord defs (firstSeg tag) with
    | some d => some (RestCall.createLabel owner repo tag d.color d.description)
    | none => none

/-- The creation calls the `for (const tag of tags)` loop of
`createMissingLabels` issues, in iteration order. -/
def createCallsList (tags existing : List String)
    (defs : List (String × LabelPrefixDefinition)) (owner repo : String) :
    List RestCall :=
  tags.filterMap (createCallFor existing defs owner repo)

/-- The model of `createMissingLabels` (src/main.ts:360-383): it resolves the PR
context itself (a third resolution within a run), then iterates the tag
set; iterating `undefined` (the value `collectAffectedTags` returns for
an empty affected list) throws. -/
def createMissingLabels (ctx : Context) (pulls : List Nat)
    (tagsOpt : Option (List String)) (existing : List String)
    (defs : List (String × LabelPrefixDefinition)) :
    List RestCall × JsResult Unit :=
  match getPRInfo ctx pulls with
  | (t, .thrown e) => (t, .thrown e)
  | (t, .value pr) =>
    match tagsOpt with
    | none => (t, .thrown .typeError)
    | some tags =>
      (t ++ createCallsList tags existing defs pr.owner pr.repo, .value ())

/-- How a run ends: normal completion, the early `return` taken when the
initial `getPRInfo` throws (the only guarded call), or an uncaught
error. -/
inductive Outcome where
  | completed
  | earlyReturn
  | failed (e : JsError)
deriving DecidableEq

/-- The model of `run` (src/main.ts:385-427): resolve the PR context (errors caught,
run returns early), collect the affected tags, fetch the repository's
labels, create the missing ones, and apply the full tag set to the
issue/PR resolved at the start.  `Array.from(undefined)` throws, so a
tag set of `undefined` that survived to the final call would also
fail. -/
def run (sentinel : String) (abbrevs : List (String × String))
    (defs : List (String × LabelPrefixDefinition)) (ctx : Context)
    (pulls : List Nat) (affected : List String)
    (configurations : List (String × ProjectConfig))
    (pages : Nat → List String) (fuel : Nat) : List RestCall × Outcome :=
  match getPRInfo ctx pulls with
  | (t1, .thrown _) => (t1, .earlyReturn)
  | (t1, .value pr) =>
    match collectAffectedTags sentinel affected configurations abbrevs with
    | .thrown e => (t1, .failed e)
    | .value tagsOpt =>
      match fetchRepositoryLabels ctx pulls pages fuel with
      | (t2, .thrown e) => (t1 ++ t2, .failed e)
      | (t2, .value existing) =>
        match createMissingLabels ctx pulls tagsOpt existing defs with
        | (t3, .thrown e) => (t1 ++ t2 ++ t3, .failed e)
        | (t3, .value _) =>
          match tagsOpt with
          | none => (t1 ++ t2 ++ t3, .failed .typeError)
          | some tags =>
            (t1 ++ t2 ++ t3 ++
              [RestCall.addLabels pr.owner pr.repo pr.number tags],
             Outcome.completed)

/-- Is this call the associated-PR query (`listPullRequestsAssociatedWithCommit`)? -/
def isPRQuery : RestCall → Bool
  | .listPRsForCommit _ _ _ => true
  | _ => false

/-- Is this call a `createLabel` for the given label name? -/
def isCreateFor (tag : String) : RestCall → Bool
  | .createLabel _ _ name _ _ => name = tag
  | _ => false

/-- Is this call an `addLabels` application? -/
def isApplyCall : RestCall → Bool
  | .addLabels _ _ _ _ => true
  | _ => false

/-- The consecutive page numbers `[p, p+1, ..., p+k-1]`. -/
def pageSpan (p : Nat) : Nat → List Nat
  | 0 => []
  | k + 1 => p :: pageSpan (p + 1) k

/-! ## Membership lemmas for the set model -/

theorem mem_addUniq {l : List String} {s a : String} :
    a ∈ addUniq l s ↔ a ∈ l ∨ a = s := by
  unfold addUniq
  by_cases h : s ∈ l
  · simp only [h, if_true]
    constructor
    · exact Or.inl
    · rintro (ha | rfl)
      · exact ha
      · exact h
  · simp [h]

theorem self_mem_addUniq (l : List String) (s : String) : s ∈ addUniq l s :=
  mem_addUniq.mpr (Or.inr rfl)

theorem addUniq_subset {l : List String} {s a : String} (h : a ∈ l) :
    a ∈ addUniq l s :=
  mem_addUniq.mpr (Or.inl h)

theorem mem_foldl_addUniq (data : List String) :
    ∀ (acc : List String) (a : String),
      a ∈ data.foldl addUniq acc ↔ a ∈ acc ∨ a ∈ data := by
  induction data with
  | nil => intro acc a; simp
  | cons d rest ih =>
    intro acc a
    rw [List.foldl_cons, ih, mem_addUniq]
    simp only [List.mem_cons]
    tauto

theorem mem_foldl_addUniq_map (f : String → String) (ts : List String) :
    ∀ (acc : List String) (a : String), a ∈ acc →
      a ∈ ts.foldl (fun l t => addUniq l (f t)) acc := by
  induction ts with
  | nil => intro acc a ha; exact ha
  | cons t rest ih =>
    intro acc a ha
    exact ih (addUniq acc (f t)) a (addUniq_subset ha)

theorem mem_foldl_addUniq_map_self (f : String → String) (ts : List String) :
    ∀ (acc : List String) (t : String), t ∈ ts →
      f t ∈ ts.foldl (fun l t => addUniq l (f t)) acc := by
  induction ts with
  | nil => intro acc t ht; cases ht
  | cons t0 rest ih =>
    intro acc t ht
    rcases List.mem_cons.mp ht with rfl | ht2
    · exact mem_foldl_addUniq_map f rest _ _ (self_mem_addUniq acc (f t))
    · exact ih _ t ht2

theorem lookupRecord_mem_values {α : Type} (m : List (String × α)) (k : String)
    (v : α) (h : lookupRecord m k = some v) : v ∈ m.map Prod.snd := by
  induction m with
  | nil => cases h
  | cons e rest ih =>
    obtain ⟨k2, v2⟩ := e
    unfold lookupRecord at h
    by_cases hk : k2 = k
    · simp only [hk, if_true] at h
      injection h with h
      subst h
      exact List.mem_cons_self _ _
    · simp only [hk, if_false] at h
      exact List.mem_cons_of_mem _ (ih h)

/-! ## Lemmas on the per-project collection loop -/

theorem collectLoop_ok (abbrevs : List (String × String))
    (configurations : List (String × ProjectConfig)) :
    ∀ (l acc : List String),
      (∀ q ∈ l, (lookupRecord configurations q).isSome = true) →
      ∃ s, collectLoop abbrevs configurations l acc = .value s := by
  intro l
  induction l with
  | nil => intro acc _; exact ⟨acc, rfl⟩
  | cons q rest ih =>
    intro acc hall
    have hq := hall q (List.mem_cons_self q rest)
    cases hcfg : lookupRecord configurations q with
    | none => rw [hcfg] at hq; cases hq
    | some config =>
      simp only [collectLoop, hcfg]
      exact ih _ (fun x hx => hall x (List.mem_cons_of_mem q hx))

theorem collectLoop_mono (abbrevs : List (String × String))
    (configurations : List (String × ProjectConfig)) :
    ∀ (l acc s : List String) (a : String),
      collectLoop abbrevs configurations l acc = .value s → a ∈ acc → a ∈ s := by
  intro l
  induction l with
  | nil =>
    intro acc s a h ha
    injection h with h
    subst h
    exact ha
  | cons q rest ih =>
    intro acc s a h ha
    cases hcfg : lookupRecord configurations q with
    | none => simp only [collectLoop, hcfg] at h; cases h
    | some config =>
      simp only [collectLoop, hcfg] at h
      exact ih _ s a h
        (addUniq_subset (mem_foldl_addUniq_map (processTag abbrevs) _ _ _ ha))

theorem collectLoop_emits (abbrevs : List (String × String))
    (configurations : List (String × ProjectConfig)) :
    ∀ (l acc s : List String) (p : String) (config : ProjectConfig),
      p ∈ l → lookupRecord configurations p = some config →
      collectLoop abbrevs configurations l acc = .value s →
      (∀ tag ∈ config.tags, processTag abbrevs tag ∈ s) ∧
        synthTag abbrevs config ∈ s := by
  intro l
  induction l with
  | nil => intro acc s p config hp; cases hp
  | cons q rest ih =>
    intro acc s p config hp hcfg hrun
    cases hcfg2 : lookupRecord configurations q with
    | none => simp only [collectLoop, hcfg2] at hrun; cases hrun
    | some cfg2 =>
      simp only [collectLoop, hcfg2] at hrun
      rcases List.mem_cons.mp hp with rfl | hp2
      · rw [hcfg] at hcfg2
        injection hcfg2 with heq
        subst heq
        constructor
        · intro tag htag
          refine collectLoop_mono abbrevs configurations rest _ s _ hrun ?_
          exact addUniq_subset
            (mem_foldl_addUniq_map_self (processTag abbrevs) _ acc tag htag)
        · exact collectLoop_mono abbrevs configurations rest _ s _ hrun
            (self_mem_addUniq _ _)
      · exact ih _ s p config hp2 hcfg hrun

/-! ## Lemmas on the pagination loop -/

theorem mem_pageSpan (q : Nat) : ∀ (p k : Nat), q ∈ pageSpan p k ↔ p ≤ q ∧ q < p + k := by
  intro p k
  induction k generalizing p with
  | zero => simp [pageSpan]
  | succ k ih =>
    simp only [pageSpan, List.mem_cons, ih (p + 1)]
    omega

theorem mem_foldl_pages (pages : Nat → List String) (ks : List Nat) :
    ∀ (acc : List String) (a : String),
      a ∈ ks.foldl (fun l k => (pages k).foldl addUniq l) acc ↔
        a ∈ acc ∨ ∃ k ∈ ks, a ∈ pages k := by
  induction ks with
  | nil => intro acc a; simp
  | cons k rest ih =>
    intro acc a
    rw [List.foldl_cons, ih, mem_foldl_addUniq]
    simp only [List.mem_cons]
    constructor
    · rintro ((h | h) | ⟨k2, hk2, h⟩)
      · exact Or.inl h
      · exact Or.inr ⟨k, Or.inl rfl, h⟩
      · exact Or.inr ⟨k2, Or.inr hk2, h⟩
    · rintro (h | ⟨k2, (rfl | hk2), h⟩)
      · exact Or.inl (Or.inl h)
      · exact Or.inl (Or.inr h)
      · exact Or.inr ⟨k2, hk2, h⟩

theorem fetchGo_spec (owner repo : String) (pages : Nat → List String) (N : Nat)
    (hshort : (pages N).length ≠ 100) :
    ∀ (fuel p : Nat) (acc : List String), p ≤ N →
      (∀ k, p ≤ k → k < N → (pages k).length = 100) → N + 1 - p ≤ fuel →
      fetchGo owner repo pages fuel p acc =
        ((pageSpan p (N + 1 - p)).map
            (fun q => RestCall.listLabels owner repo q 100),
         .value ((pageSpan p (N + 1 - p)).foldl
            (fun l k => (pages k).foldl addUniq l) acc)) := by
  intro fuel
  induction fuel with
  | zero => intro p acc hp _ hfuel; omega
  | succ fuel ih =>
    intro p acc hp hfull hfuel
    by_cases hpN : p = N
    · subst hpN
      have h1 : p + 1 - p = 1 := by omega
      rw [h1]
      simp only [fetchGo, pageSpan, List.map_cons, List.map_nil,
        List.foldl_cons, List.foldl_nil, hshort, if_false]
    · have hlt : p < N := by omega
      have hdata : (pages p).length = 100 := hfull p (Nat.le_refl p) hlt
      have hspan : N + 1 - p = (N + 1 - (p + 1)) + 1 := by omega
      rw [hspan]
      simp only [fetchGo, hdata, if_true, pageSpan, List.map_cons, List.foldl_cons]
      rw [ih (p + 1) ((pages p).foldl addUniq acc) (by omega)
        (fun k hk1 hk2 => hfull k (by omega) hk2) (by omega)]

theorem fetchGo_trace_shape (owner repo : String) (pages : Nat → List String) :
    ∀ (fuel p : Nat) (acc : List String),
      ∀ c ∈ (fetchGo owner repo pages fuel p acc).1,
        ∃ q, c = RestCall.listLabels owner repo q 100 := by
  intro fuel
  induction fuel with
  | zero => intro p acc c hc; simp [fetchGo] at hc
  | succ fuel ih =>
    intro p acc c hc
    simp only [fetchGo] at hc
    by_cases h : ((pages p).length = 100)
    · simp only [h, if_true, List.mem_cons] at hc
      rcases hc with rfl | hc
      · exact ⟨p, rfl⟩
      · exact ih _ _ c hc
    · simp only [h, if_false, List.mem_singleton] at hc
      exact ⟨p, hc⟩

/-! ## Lemmas on trace shapes and creation-call counts -/

theorem getPRInfo_trace_shape (ctx : Context) (pulls : List Nat) :
    ∀ c ∈ (getPRInfo ctx pulls).1,
      c = RestCall.listPRsForCommit ctx.repoOwner ctx.repoRepo ctx.sha := by
  intro c hc
  unfold getPRInfo at hc
  by_cases h : truthyNum ctx.issueNumber
  · simp [h] at hc
  · simp only [h, Bool.false_eq_true, if_false, List.mem_singleton] at hc
    exact hc


theorem createCallsList_shape (tags existing : List String)
    (defs : List (String × LabelPrefixDefinition)) (owner repo : String) :
    ∀ c ∈ createCallsList tags existing defs owner repo,
      ∃ (tag : String) (d : LabelPrefixDefinition),
        c = RestCall.createLabel owner repo tag d.color d.description := by
  intro c hc
  rcases List.mem_filterMap.mp hc with ⟨tag, _, hf⟩
  unfold createCallFor at hf
  by_cases hex : tag ∈ existing
  · rw [if_pos hex] at hf
    cases hf
  · rw [if_neg hex] at hf
    cases hlk : lookupRecord defs (firstSeg tag) with
    | none => rw [hlk] at hf; cases hf
    | some d =>
      rw [hlk] at hf
      injection hf with hf
      exact ⟨tag, d, hf.symm⟩

theorem createCallFor_pred (existing : List String)
    (defs : List (String × LabelPrefixDefinition)) (owner repo tag t : String) :
    ((createCallFor existing defs owner repo t).map (isCreateFor tag)).getD false =
      if t = tag ∧ tag ∉ existing ∧
          (lookupRecord defs (firstSeg tag)).isSome = true then true else false := by
  by_cases ht : t = tag
  · subst ht
    unfold createCallFor
    by_cases hex : t ∈ existing
    · simp [hex]
    · cases hlk : lookupRecord defs (firstSeg t) with
      | none => simp [hex, hlk]
      | some d => simp [hex, hlk, isCreateFor]
  · unfold createCallFor
    by_cases hex : t ∈ existing
    · simp [hex, ht]
    · cases hlk : lookupRecord defs (firstSeg t) with
      | none => simp [hex, hlk, ht]
      | some d => simp [hex, hlk, isCreateFor, ht]

theorem countP_createCallsList_present (existing : List String)
    (defs : List (String × LabelPrefixDefinition)) (owner repo tag : String)
    (tags : List String) (hex : tag ∈ existing) :
    (createCallsList tags existing defs owner repo).countP (isCreateFor tag) = 0 := by
  unfold createCallsList
  rw [List.countP_filterMap]
  apply List.countP_eq_zero.mpr
  intro a _
  rw [createCallFor_pred, if_neg (fun h : a = tag ∧ _ => h.2.1 hex)]
  simp

theorem countP_createCallsList_nodef (existing : List String)
    (defs : List (String × LabelPrefixDefinition)) (owner repo tag : String)
    (tags : List String) (hlk : lookupRecord defs (firstSeg tag) = none) :
    (createCallsList tags existing defs owner repo).countP (isCreateFor tag) = 0 := by
  unfold createCallsList
  rw [List.countP_filterMap]
  apply List.countP_eq_zero.mpr
  intro a _
  have hno : ¬(a = tag ∧ tag ∉ existing ∧
      (lookupRecord defs (firstSeg tag)).isSome = true) := by
    rintro ⟨_, _, hs⟩
    rw [hlk] at hs
    cases hs
  rw [createCallFor_pred, if_neg hno]
  simp

theorem countP_createCallsList_missing (existing : List String)
    (defs : List (String × LabelPrefixDefinition)) (owner repo tag : String)
    (tags : List String) (hnd : tags.Nodup) (hmem : tag ∈ tags)
    (hex : tag ∉ existing) (d : LabelPrefixDefinition)
    (hlk : lookupRecord defs (firstSeg tag) = some d) :
    (createCallsList tags existing defs owner repo).countP (isCreateFor tag) = 1 := by
  unfold createCallsList
  rw [List.countP_filterMap]
  have he : (fun a => ((createCallFor existing defs owner repo a).map
      (isCreateFor tag)).getD false) = (fun a => a == tag) := by
    funext a
    rw [createCallFor_pred]
    by_cases h : a = tag
    · subst h
      rw [if_pos ⟨rfl, hex, by rw [hlk]; rfl⟩]
      simp
    · rw [if_neg (fun hc => h hc.1)]
      simp [h]
  rw [he, ← List.count_eq_countP]
  exact List.count_eq_one_of_mem hnd hmem

theorem createCall_mem (tags existing : List String)
    (defs : List (String × LabelPrefixDefinition)) (owner repo tag : String)
    (hmem : tag ∈ tags) (hex : tag ∉ existing) (d : LabelPrefixDefinition)
    (hlk : lookupRecord defs (firstSeg tag) = some d) :
    RestCall.createLabel owner repo tag d.color d.description ∈
      createCallsList tags existing defs owner repo := by
  unfold createCallsList
  refine List.mem_filterMap.mpr ⟨tag, hmem, ?_⟩
  unfold createCallFor
  rw [if_neg hex, hlk]

/-! ## The trace of a completed run -/

theorem run_trace (sentinel : String) (abbrevs : List (String × String))
    (defs : List (String × LabelPrefixDefinition)) (ctx : Context)
    (pulls : List Nat) (affected : List String)
    (configurations : List (String × ProjectConfig))
    (pages : Nat → List String) (fuel : Nat) (t1 t2 : List RestCall)
    (pr : PRInfo) (tags existing : List String)
    (h1 : getPRInfo ctx pulls = (t1, .value pr))
    (h2 : collectAffectedTags sentinel affected configurations abbrevs =
      .value (some tags))
    (h3 : fetchGo pr.owner pr.repo pages fuel 1 [] = (t2, .value existing)) :
    run sentinel abbrevs defs ctx pulls affected configurations pages fuel =
      (t1 ++ (t1 ++ t2) ++
        (t1 ++ createCallsList tags existing defs pr.owner pr.repo) ++
        [RestCall.addLabels pr.owner pr.repo pr.number tags],
       Outcome.completed) := by
  unfold run fetchRepositoryLabels createMissingLabels
  rw [h1, h2]
  dsimp only
  rw [h3]

theorem countP_zero_of_shape (pred : RestCall → Bool) (t : List RestCall)
    (h : ∀ c ∈ t, pred c = false) : t.countP pred = 0 :=
  List.countP_eq_zero.mpr (fun c hc => by rw [h c hc]; exact Bool.false_ne_true)

theorem fetchGo_countP_isPRQuery (owner repo : String) (pages : Nat → List String)
    (fuel p : Nat) (acc : List String) :
    ((fetchGo owner repo pages fuel p acc).1).countP isPRQuery = 0 := by
  apply countP_zero_of_shape
  intro c hc
  rcases fetchGo_trace_shape owner repo pages fuel p acc c hc with ⟨q, rfl⟩
  rfl

theorem fetchGo_countP_isApplyCall (owner repo : String) (pages : Nat → List String)
    (fuel p : Nat) (acc : List String) :
    ((fetchGo owner repo pages fuel p acc).1).countP isApplyCall = 0 := by
  apply countP_zero_of_shape
  intro c hc
  rcases fetchGo_trace_shape owner repo pages fuel p acc c hc with ⟨q, rfl⟩
  rfl

theorem createCallsList_countP_isPRQuery (tags existing : List String)
    (defs : List (String × LabelPrefixDefinition)) (owner repo : String) :
    (createCallsList tags existing defs owner repo).countP isPRQuery = 0 := by
  apply countP_zero_of_shape
  intro c hc
  rcases createCallsList_shape tags existing defs owner repo c hc with ⟨tag, d, rfl⟩
  rfl

theorem createCallsList_countP_isApplyCall (tags existing : List String)
    (defs : List (String × LabelPrefixDefinition)) (owner repo : String) :
    (createCallsList tags existing defs owner repo).countP isApplyCall = 0 := by
  apply countP_zero_of_shape
  intro c hc
  rcases createCallsList_shape tags existing defs owner repo c hc with ⟨tag, d, rfl⟩
  rfl

theorem getPRInfo_countP_isApplyCall (ctx : Context) (pulls : List Nat) :
    ((getPRInfo ctx pulls).1).countP isApplyCall = 0 := by
  apply countP_zero_of_shape
  intro c hc
  rw [getPRInfo_trace_shape ctx pulls c hc]
  rfl

/-! ## Branch lemmas for the per-tag normalization -/

theorem processTag_truthy (abbrevs : List (String × String)) (tag v : String)
    (hv : lookupRecord abbrevs (firstSeg tag) = some v) (hne : v ≠ "") :
    processTag abbrevs tag =
      firstSeg tag ++ ":" ++ undefOr (splitColon tag)[1]? := by
  unfold processTag
  rw [hv]
  simp [truthyStr, hne]

theorem processTag_falsy (abbrevs : List (String × String)) (tag : String)
    (hf : truthyStr (lookupRecord abbrevs (firstSeg tag)) = false) :
    processTag abbrevs tag = tag := by
  unfold processTag
  rw [hf]
  simp

theorem processTag_two_segments (abbrevs : List (String × String)) (tag v : String)
    (hv : lookupRecord abbrevs (firstSeg tag) = some v) (hne : v ≠ "") :
    processTag abbrevs tag =
      match splitColon tag with
      | a :: b :: _ => a ++ ":" ++ b
      | [a] => a ++ ":undefined"
      | [] => ":undefined" := by
  rw [processTag_truthy abbrevs tag v hv hne]
  unfold firstSeg
  rcases hsp : splitColon tag with _ | ⟨a, _ | ⟨b, rest⟩⟩
  · rfl
  · show a ++ ":" ++ "undefined" = a ++ ":undefined"
    rw [String.append_assoc]
    rfl
  · simp [List.getElem?_cons_succ, List.getElem?_cons_zero, undefOr]

/-! ## Claim C1 -/

/-- C1 (amended): for a nonempty affected list whose length equals the
catalog's size, `collectAffectedTags` returns exactly the singleton set
holding the sentinel, regardless of the projects' declared tags, types
or names.  The original claim, quantified over every affected list,
fails for the empty affected list: the emptiness check runs first and
the function returns undefined rather than the sentinel singleton. -/
theorem collect_all_affected (sentinel : String) (affected : List String)
    (configurations : List (String × ProjectConfig))
    (abbrevs : List (String × String)) (hne : affected ≠ [])
    (hlen : affected.length = configurations.length) :
    collectAffectedTags sentinel affected configurations abbrevs =
      .value (some [sentinel]) := by
  unfold collectAffectedTags
  rw [if_neg (fun h => hne (List.length_eq_zero.mp h)), if_pos hlen]

/-- Witness for C1's theorem at a concrete input. -/
theorem collect_all_affected_witness :
    collectAffectedTags "all projects affected" ["p"]
      [("p", ⟨"p", "library", ["lib:core"]⟩)] [("library", "lib")] =
      .value (some ["all projects affected"]) :=
  collect_all_affected "all projects affected" ["p"]
    [("p", ⟨"p", "library", ["lib:core"]⟩)] [("library", "lib")]
    (by decide) rfl

/-- C1 counterexample: with an empty affected list and an empty catalog
the affected count equals the total project count, yet
`collectAffectedTags` returns undefined, not the sentinel singleton. -/
theorem collect_all_affected_cex :
    ([] : List String).length =
        ([] : List (String × ProjectConfig)).length ∧
      collectAffectedTags "all projects affected" [] [] [] ≠
        .value (some ["all projects affected"]) := by
  exact ⟨rfl, by decide⟩

/-! ## Claim C4 -/

/-- C4: evaluation at the failing input.  With an empty affected list
`collectAffectedTags` executes a bare `return` and produces undefined
(`.value none`), not the empty tag set its declared return type
`Promise<Set<string>>` promises. -/
theorem collect_empty_returns_undefined :
    collectAffectedTags "s" [] [("q", ⟨"q", "library", []⟩)] [] =
        .value none ∧
      collectAffectedTags "s" [] [("q", ⟨"q", "library", []⟩)] [] ≠
        .value (some []) := by
  exact ⟨rfl, by decide⟩

/-! ## Claim C5 -/

/-- C5: evaluation at the failing input.  In a run with a resolvable PR
context and zero affected projects, the code does not exit early: it
still issues a label-listing REST call and then fails with a TypeError
when `createMissingLabels` iterates the undefined tag set. -/
theorem run_empty_affected_crashes :
    run "s" [] [] ⟨"o", "r", some 7, "ro", "rr", "sh"⟩ [] []
        [("q", ⟨"q", "library", []⟩)] (fun _ => []) 1 =
      ([RestCall.listLabels "o" "r" 1 100], .failed .typeError) := by
  rfl

/-! ## Claim C2 -/

/-- C2 (amended): for an affected set strictly smaller than the catalog
(each affected project present in it), the derived tag set exists and
contains, for every declared tag of every affected project, the
normalization `first:second` of the tag whenever the segment before the
first ':' maps to a NON-EMPTY abbreviation value, and the tag verbatim
whenever the lookup is falsy; additionally it contains the synthesized
`abbreviation(type):name` tag of each affected project.  The original
claim's condition — mere key membership — fails when a key maps to the
empty string, which JavaScript treats as falsy (see the
counterexample). -/
theorem collect_normalizes_tags (sentinel : String) (affected : List String)
    (configurations : List (String × ProjectConfig))
    (abbrevs : List (String × String))
    (hlt : affected.length < configurations.length)
    (hmem : ∀ q ∈ affected, (lookupRecord configurations q).isSome = true) :
    ∀ p ∈ affected, ∀ config, lookupRecord configurations p = some config →
      ∃ s, collectAffectedTags sentinel affected configurations abbrevs =
          .value (some s) ∧
        (∀ tag ∈ config.tags,
          (∀ v, lookupRecord abbrevs (firstSeg tag) = some v → v ≠ "" →
            firstSeg tag ++ ":" ++ undefOr (splitColon tag)[1]? ∈ s) ∧
          (truthyStr (lookupRecord abbrevs (firstSeg tag)) = false →
            tag ∈ s)) ∧
        synthTag abbrevs config ∈ s := by
  intro p hp config hcfg
  have hne0 : affected.length ≠ 0 := by
    intro h
    rw [List.length_eq_zero.mp h] at hp
    cases hp
  have hnel : affected.length ≠ configurations.length := Nat.ne_of_lt hlt
  obtain ⟨s, hs⟩ := collectLoop_ok abbrevs configurations affected [] hmem
  have hemits := collectLoop_emits abbrevs configurations affected [] s p config
    hp hcfg hs
  refine ⟨s, ?_, ?_, hemits.2⟩
  · unfold collectAffectedTags
    rw [if_neg hne0, if_neg hnel, hs]
  · intro tag htag
    constructor
    · intro v hv hvne
      rw [← processTag_truthy abbrevs tag v hv hvne]
      exact hemits.1 tag htag
    · intro hfalse
      rw [← processTag_falsy abbrevs tag hfalse]
      exact hemits.1 tag htag

/-- Witness for C2's theorem at a concrete input. -/
theorem collect_normalizes_tags_witness :
    ∃ s, collectAffectedTags "s" ["w"]
        [("w", ⟨"w", "application", ["lib:core"]⟩),
         ("x", ⟨"x", "library", []⟩)] [("application", "app")] =
        .value (some s) ∧
      (∀ tag ∈ (ProjectConfig.mk "w" "application" ["lib:core"]).tags,
        (∀ v, lookupRecord [("application", "app")] (firstSeg tag) = some v →
          v ≠ "" →
          firstSeg tag ++ ":" ++ undefOr (splitColon tag)[1]? ∈ s) ∧
        (truthyStr (lookupRecord [("application", "app")] (firstSeg tag)) =
            false → tag ∈ s)) ∧
      synthTag [("application", "app")] ⟨"w", "application", ["lib:core"]⟩ ∈ s :=
  collect_normalizes_tags "s" ["w"]
    [("w", ⟨"w", "application", ["lib:core"]⟩), ("x", ⟨"x", "library", []⟩)]
    [("application", "app")] (by decide) (by decide) "w" (by decide)
    ⟨"w", "application", ["lib:core"]⟩ (by decide)

/-- C2 counterexample: "lang" is a key of the abbreviation map but maps to
the empty string; the affected project declares the tag "lang:ts:strict"
and the affected set is strictly smaller than the catalog, yet the
normalization "lang:ts" the claim demands is absent from the derived set
— the tag is kept verbatim because the empty abbreviation value is
falsy. -/
theorem collect_normalizes_tags_cex :
    collectAffectedTags "s" ["p0"]
        [("p0", ⟨"p0", "library", ["lang:ts:strict"]⟩),
         ("q0", ⟨"q0", "library", []⟩)] [("lang", "")] =
      .value (some ["lang:ts:strict", "undefined:p0"]) ∧
    lookupRecord [("lang", "")] (firstSeg "lang:ts:strict") = some "" ∧
    "lang:ts" ∉ ["lang:ts:strict", "undefined:p0"] := by
  decide

/-! ## Claim C3 -/

/-- C3 (amended): for an affected set strictly smaller than the catalog,
the synthesized `abbreviation:name` tag of each affected project is in
the derived set, and its abbreviation component is either one of the
values of the supplied abbreviation map (type found) or the literal
string "undefined" (type not a key).  The original claim — the component
is always drawn from the map's values, even for unmapped types — fails
(see the counterexample). -/
theorem collect_synth_abbrev_source (sentinel : String) (affected : List String)
    (configurations : List (String × ProjectConfig))
    (abbrevs : List (String × String))
    (hlt : affected.length < configurations.length)
    (hmem : ∀ q ∈ affected, (lookupRecord configurations q).isSome = true) :
    ∀ p ∈ affected, ∀ config, lookupRecord configurations p = some config →
      ∃ s, collectAffectedTags sentinel affected configurations abbrevs =
          .value (some s) ∧
        synthTag abbrevs config ∈ s ∧
        (undefOr (lookupRecord abbrevs config.projectType) ∈
            abbrevs.map Prod.snd ∨
          undefOr (lookupRecord abbrevs config.projectType) = "undefined") := by
  intro p hp config hcfg
  have hne0 : affected.length ≠ 0 := by
    intro h
    rw [List.length_eq_zero.mp h] at hp
    cases hp
  have hnel : affected.length ≠ configurations.length := Nat.ne_of_lt hlt
  obtain ⟨s, hs⟩ := collectLoop_ok abbrevs configurations affected [] hmem
  have hemits := collectLoop_emits abbrevs configurations affected [] s p config
    hp hcfg hs
  refine ⟨s, ?_, hemits.2, ?_⟩
  · unfold collectAffectedTags
    rw [if_neg hne0, if_neg hnel, hs]
  · cases hlk : lookupRecord abbrevs config.projectType with
    | none =>
      right
      rfl
    | some v =>
      left
      exact lookupRecord_mem_values abbrevs config.projectType v hlk

/-- Witness for C3's theorem at a concrete input. -/
theorem collect_synth_abbrev_source_witness :
    ∃ s, collectAffectedTags "s" ["w2"]
        [("w2", ⟨"w2", "library", []⟩), ("x2", ⟨"x2", "library", []⟩)]
        [("library", "lib")] = .value (some s) ∧
      synthTag [("library", "lib")] ⟨"w2", "library", []⟩ ∈ s ∧
      (undefOr (lookupRecord [("library", "lib")]
          (ProjectConfig.mk "w2" "library" []).projectType) ∈
          [("library", "lib")].map Prod.snd ∨
        undefOr (lookupRecord [("library", "lib")]
          (ProjectConfig.mk "w2" "library" []).projectType) = "undefined") :=
  collect_synth_abbrev_source "s" ["w2"]
    [("w2", ⟨"w2", "library", []⟩), ("x2", ⟨"x2", "library", []⟩)]
    [("library", "lib")] (by decide) (by decide) "w2" (by decide)
    ⟨"w2", "library", []⟩ (by decide)

/-- C3 counterexample: the affected project's type "tool" is not a key of
the abbreviation map, so the synthesized tag is "undefined:pt", whose
leading component "undefined" is not among the map's values — refuting
the claim that the component is always drawn from the values even for
unmapped types. -/
theorem collect_synth_abbrev_source_cex :
    collectAffectedTags "s" ["pt"]
        [("pt", ⟨"pt", "tool", []⟩), ("qt", ⟨"qt", "library", []⟩)]
        [("application", "app")] = .value (some ["undefined:pt"]) ∧
    firstSeg "undefined:pt" = "undefined" ∧
    "undefined" ∉ [("application", "app")].map Prod.snd := by
  decide

/-! ## Claim C10 -/

/-- C10 (amended): for an affected set strictly smaller than the catalog,
a declared tag whose segment before the first ':' maps to a NON-EMPTY
abbreviation value is emitted as exactly its first two ':'-separated
segments (text after a second ':' is discarded, e.g. "lang:ts:strict"
becomes "lang:ts"), and a declared tag with no ':' at all is emitted
with the literal suffix "undefined" (e.g. "application" becomes
"application:undefined").  The original claim's condition — mere key
membership — fails when the key maps to the empty string, which
JavaScript treats as falsy (see the counterexample). -/
theorem collect_truncates_extra_segments (sentinel : String)
    (affected : List String)
    (configurations : List (String × ProjectConfig))
    (abbrevs : List (String × String))
    (hlt : affected.length < configurations.length)
    (hmem : ∀ q ∈ affected, (lookupRecord configurations q).isSome = true) :
    ∀ p ∈ affected, ∀ config, lookupRecord configurations p = some config →
      ∀ tag ∈ config.tags, ∀ v,
        lookupRecord abbrevs (firstSeg tag) = some v → v ≠ "" →
        ∃ s, collectAffectedTags sentinel affected configurations abbrevs =
            .value (some s) ∧
          (match splitColon tag with
           | a :: b :: _ => a ++ ":" ++ b
           | [a] => a ++ ":undefined"
           | [] => ":undefined") ∈ s := by
  intro p hp config hcfg tag htag v hv hvne
  have hne0 : affected.length ≠ 0 := by
    intro h
    rw [List.length_eq_zero.mp h] at hp
    cases hp
  have hnel : affected.length ≠ configurations.length := Nat.ne_of_lt hlt
  obtain ⟨s, hs⟩ := collectLoop_ok abbrevs configurations affected [] hmem
  have hemits := collectLoop_emits abbrevs configurations affected [] s p config
    hp hcfg hs
  refine ⟨s, ?_, ?_⟩
  · unfold collectAffectedTags
    rw [if_neg hne0, if_neg hnel, hs]
  · rw [← processTag_two_segments abbrevs tag v hv hvne]
    exact hemits.1 tag htag

/-- Witness for C10's theorem at a concrete input: the three-segment
declared tag "lang:ts:strict" with a mapped first segment. -/
theorem collect_truncates_extra_segments_witness :
    ∃ s, collectAffectedTags "s" ["w3"]
        [("w3", ⟨"w3", "library", ["lang:ts:strict"]⟩),
         ("x3", ⟨"x3", "library", []⟩)] [("lang", "lg")] =
        .value (some s) ∧
      (match splitColon "lang:ts:strict" with
       | a :: b :: _ => a ++ ":" ++ b
       | [a] => a ++ ":undefined"
       | [] => ":undefined") ∈ s :=
  collect_truncates_extra_segments "s" ["w3"]
    [("w3", ⟨"w3", "library", ["lang:ts:strict"]⟩), ("x3", ⟨"x3", "library", []⟩)]
    [("lang", "lg")] (by decide) (by decide) "w3" (by decide)
    ⟨"w3", "library", ["lang:ts:strict"]⟩ (by decide) "lang:ts:strict"
    (by decide) "lg" (by decide) (by decide)

/-- C10 counterexample: "application" is a key of the abbreviation map but
maps to the empty string; the declared colon-free tag "application" is
then kept verbatim, and the "application:undefined" form the claim
demands is absent from the derived set. -/
theorem collect_truncates_extra_segments_cex :
    collectAffectedTags "s" ["w1"]
        [("w1", ⟨"w1", "library", ["application"]⟩),
         ("z1", ⟨"z1", "library", []⟩)] [("application", "")] =
      .value (some ["application", "undefined:w1"]) ∧
    lookupRecord [("application", "")] (firstSeg "application") = some "" ∧
    "application:undefined" ∉ ["application", "undefined:w1"] := by
  decide

/-! ## Claim C6 -/

/-- C6: label synchronization.  For a duplicate-free target tag set:
each target tag absent from the existing labels whose text before the
first ':' has a definition receives exactly one creation call, carrying
that definition's color and description; a tag already present, or one
whose leading text has no definition, receives none.  Afterwards (in a
completed run) the full target tag set is applied to the resolved
issue/PR in exactly one addLabels call. -/
theorem createMissingLabels_sync (tags existing : List String)
    (defs : List (String × LabelPrefixDefinition)) (owner repo : String)
    (hnd : tags.Nodup) (sentinel : String) (abbrevs : List (String × String))
    (ctx : Context) (pulls : List Nat) (affected : List String)
    (configurations : List (String × ProjectConfig))
    (pages : Nat → List String) (fuel : Nat) (t1 t2 : List RestCall)
    (pr : PRInfo) :
    (∀ tag ∈ tags,
      (tag ∉ existing → ∀ d, lookupRecord defs (firstSeg tag) = some d →
        (createCallsList tags existing defs owner repo).countP
            (isCreateFor tag) = 1 ∧
          RestCall.createLabel owner repo tag d.color d.description ∈
            createCallsList tags existing defs owner repo) ∧
      (tag ∈ existing →
        (createCallsList tags existing defs owner repo).countP
          (isCreateFor tag) = 0) ∧
      (lookupRecord defs (firstSeg tag) = none →
        (createCallsList tags existing defs owner repo).countP
          (isCreateFor tag) = 0)) ∧
    (getPRInfo ctx pulls = (t1, .value pr) →
      collectAffectedTags sentinel affected configurations abbrevs =
        .value (some tags) →
      fetchGo pr.owner pr.repo pages fuel 1 [] = (t2, .value existing) →
      ∃ t, run sentinel abbrevs defs ctx pulls affected configurations
          pages fuel = (t, .completed) ∧
        t.countP isApplyCall = 1 ∧
        RestCall.addLabels pr.owner pr.repo pr.number tags ∈ t) := by
  constructor
  · intro tag htag
    refine ⟨?_, ?_, ?_⟩
    · intro hex d hlk
      exact ⟨countP_createCallsList_missing existing defs owner repo tag tags
          hnd htag hex d hlk,
        createCall_mem tags existing defs owner repo tag htag hex d hlk⟩
    · intro hex
      exact countP_createCallsList_present existing defs owner repo tag tags hex
    · intro hlk
      exact countP_createCallsList_nodef existing defs owner repo tag tags hlk
  · intro h1 h2 h3
    refine ⟨_, run_trace sentinel abbrevs defs ctx pulls affected configurations
      pages fuel t1 t2 pr tags existing h1 h2 h3, ?_, ?_⟩
    · simp only [List.countP_append]
      have hz1 : t1.countP isApplyCall = 0 := by
        have h0 := getPRInfo_countP_isApplyCall ctx pulls
        rw [h1] at h0
        exact h0
      have hz2 : t2.countP isApplyCall = 0 := by
        have h0 := fetchGo_countP_isApplyCall pr.owner pr.repo pages fuel 1 []
        rw [h3] at h0
        exact h0
      rw [hz1, hz2, createCallsList_countP_isApplyCall]
      rfl
    · exact List.mem_append.mpr (Or.inr (List.mem_singleton.mpr rfl))

/-- Witness for C6's theorem at the claim's concrete instance: existing
labels contain only "lib:core", the derived target tags are
["lib:core", "app:web"], and only the "app" leading text has a
definition. -/
theorem createMissingLabels_sync_witness :
    (createCallsList ["lib:core", "app:web"] ["lib:core"]
        [("app", ⟨"D4C5F9", "desc"⟩)] "o" "r").countP
        (isCreateFor "app:web") = 1 ∧
    RestCall.createLabel "o" "r" "app:web" "D4C5F9" "desc" ∈
      createCallsList ["lib:core", "app:web"] ["lib:core"]
        [("app", ⟨"D4C5F9", "desc"⟩)] "o" "r" ∧
    ∃ t, run "s" [("application", "app")] [("app", ⟨"D4C5F9", "desc"⟩)]
        ⟨"o", "r", some 7, "ro", "rr", "sh"⟩ [] ["web"]
        [("web", ⟨"web", "application", ["lib:core"]⟩),
         ("x4", ⟨"x4", "library", []⟩)] (fun _ => ["lib:core"]) 1 =
        (t, .completed) ∧
      t.countP isApplyCall = 1 ∧
      RestCall.addLabels "o" "r" 7 ["lib:core", "app:web"] ∈ t := by
  have h := createMissingLabels_sync ["lib:core", "app:web"] ["lib:core"]
    [("app", ⟨"D4C5F9", "desc"⟩)] "o" "r" (by decide) "s"
    [("application", "app")] ⟨"o", "r", some 7, "ro", "rr", "sh"⟩ [] ["web"]
    [("web", ⟨"web", "application", ["lib:core"]⟩), ("x4", ⟨"x4", "library", []⟩)]
    (fun _ => ["lib:core"]) 1 [] [RestCall.listLabels "o" "r" 1 100]
    ⟨"o", "r", 7⟩
  refine ⟨?_, ?_, h.2 rfl rfl rfl⟩
  · exact ((h.1 "app:web" (by decide)).1 (by decide)
      ⟨"D4C5F9", "desc"⟩ (by decide)).1
  · exact ((h.1 "app:web" (by decide)).1 (by decide)
      ⟨"D4C5F9", "desc"⟩ (by decide)).2

/-! ## Claim C7 -/

/-- C7: `fetchRepositoryLabels` requests pages of size 100 starting at
page 1, continues exactly while pages come back full (N is the first
page whose response does not hold exactly 100 labels, all earlier pages
being full), terminates with a value for every such source given
sufficient fuel, and the returned set holds precisely the label names of
the fetched pages 1..N. -/
theorem fetchRepositoryLabels_pagination (ctx : Context) (pulls : List Nat)
    (t1 : List RestCall) (pr : PRInfo) (pages : Nat → List String)
    (N fuel : Nat) (hpr : getPRInfo ctx pulls = (t1, .value pr))
    (hN : 1 ≤ N) (hshort : (pages N).length ≠ 100)
    (hfull : ∀ k, 1 ≤ k → k < N → (pages k).length = 100)
    (hfuel : N ≤ fuel) :
    fetchRepositoryLabels ctx pulls pages fuel =
      (t1 ++ (pageSpan 1 N).map
          (fun q => RestCall.listLabels pr.owner pr.repo q 100),
       .value ((pageSpan 1 N).foldl
          (fun l k => (pages k).foldl addUniq l) [])) ∧
    ∀ name, name ∈ (pageSpan 1 N).foldl
        (fun l k => (pages k).foldl addUniq l) ([] : List String) ↔
      ∃ k, 1 ≤ k ∧ k ≤ N ∧ name ∈ pages k := by
  have hgo := fetchGo_spec pr.owner pr.repo pages N hshort fuel 1 [] hN hfull
    (by omega)
  have hspan : N + 1 - 1 = N := by omega
  rw [hspan] at hgo
  constructor
  · unfold fetchRepositoryLabels
    rw [hpr]
    dsimp only
    rw [hgo]
  · intro name
    rw [mem_foldl_pages]
    constructor
    · rintro (h | ⟨k, hk, hmemk⟩)
      · cases h
      · have hk2 := (mem_pageSpan k 1 N).mp hk
        exact ⟨k, hk2.1, by omega, hmemk⟩
    · rintro ⟨k, hk1, hk2, hmemk⟩
      exact Or.inr ⟨k, (mem_pageSpan k 1 N).mpr ⟨hk1, by omega⟩, hmemk⟩

/-- Witness for C7's theorem at a concrete input: page 1 returns a single
label, so exactly one page is requested and its name is returned. -/
theorem fetchRepositoryLabels_pagination_witness :
    fetchRepositoryLabels ⟨"o", "r", some 3, "ro", "rr", "sh"⟩ []
        (fun _ => ["a"]) 1 =
      ([RestCall.listLabels "o" "r" 1 100], .value ["a"]) := by
  have h := fetchRepositoryLabels_pagination ⟨"o", "r", some 3, "ro", "rr", "sh"⟩
    [] [] ⟨"o", "r", 3⟩ (fun _ => ["a"]) 1 1 rfl (by decide) (by decide)
    (fun k h1 h2 => by omega) (by decide)
  rw [h.1]
  rfl

/-! ## Claim C8 -/

/-- C8: push-triggered runs (falsy issue number in the event context).
With no pull request associated with the commit, the run issues exactly
the context-resolution query and returns early without error — no
label-listing, label-creation or label-application call occurs.  With a
non-empty result, the first result's number is combined with the event's
repository into the resolved context. -/
theorem run_push_branches (sentinel : String) (abbrevs : List (String × String))
    (defs : List (String × LabelPrefixDefinition)) (ctx : Context)
    (pulls : List Nat) (affected : List String)
    (configurations : List (String × ProjectConfig))
    (pages : Nat → List String) (fuel : Nat)
    (hpush : truthyNum ctx.issueNumber = false) :
    (pulls = [] →
      run sentinel abbrevs defs ctx pulls affected configurations pages fuel =
        ([RestCall.listPRsForCommit ctx.repoOwner ctx.repoRepo ctx.sha],
         Outcome.earlyReturn)) ∧
    ∀ n rest, pulls = n :: rest →
      getPRInfo ctx pulls =
        ([RestCall.listPRsForCommit ctx.repoOwner ctx.repoRepo ctx.sha],
         .value ⟨ctx.repoOwner, ctx.repoRepo, n⟩) := by
  constructor
  · intro hempty
    subst hempty
    have h1 : getPRInfo ctx [] =
        ([RestCall.listPRsForCommit ctx.repoOwner ctx.repoRepo ctx.sha],
         .thrown .typeError) := by
      unfold getPRInfo
      rw [hpush]
      rfl
    unfold run
    rw [h1]
  · intro n rest hcons
    subst hcons
    unfold getPRInfo
    rw [hpush]
    rfl

/-- Witness for C8's theorem at a concrete push-triggered input with no
associated pull request. -/
theorem run_push_branches_witness :
    run "s" [] [] ⟨"io", "ir", none, "ro", "rr", "sh0"⟩ [] [] []
        (fun _ => []) 1 =
      ([RestCall.listPRsForCommit "ro" "rr" "sh0"], Outcome.earlyReturn) :=
  (run_push_branches "s" [] [] ⟨"io", "ir", none, "ro", "rr", "sh0"⟩ [] [] []
    (fun _ => []) 1 rfl).1 rfl

/-! ## Claim C9 -/

/-- C9 (amended): the PR context is resolved from the same immutable
event context three times per run — once at the start of `run`, once
inside the label-listing step and once inside the label-creation step.
In a completed push-triggered run the associated-PR REST query therefore
appears exactly three times in the trace, every such query carries the
event's repository and commit SHA, and the final label application uses
the number obtained by the first resolution.  The original claim — that
the context is resolved exactly once and no further associated-PR query
is issued after the first — fails (see the counterexample). -/
theorem run_push_resolves_context_thrice (sentinel : String)
    (abbrevs : List (String × String))
    (defs : List (String × LabelPrefixDefinition)) (ctx : Context)
    (pulls : List Nat) (affected : List String)
    (configurations : List (String × ProjectConfig))
    (pages : Nat → List String) (fuel : Nat) (n : Nat) (rest : List Nat)
    (t2 : List RestCall) (tags existing : List String)
    (hpush : truthyNum ctx.issueNumber = false)
    (hpulls : pulls = n :: rest)
    (h2 : collectAffectedTags sentinel affected configurations abbrevs =
      .value (some tags))
    (h3 : fetchGo ctx.repoOwner ctx.repoRepo pages fuel 1 [] =
      (t2, .value existing)) :
    ∃ t, run sentinel abbrevs defs ctx pulls affected configurations
        pages fuel = (t, .completed) ∧
      t.countP isPRQuery = 3 ∧
      (∀ c ∈ t, isPRQuery c = true →
        c = RestCall.listPRsForCommit ctx.repoOwner ctx.repoRepo ctx.sha) ∧
      RestCall.addLabels ctx.repoOwner ctx.repoRepo n tags ∈ t := by
  subst hpulls
  have h1 : getPRInfo ctx (n :: rest) =
      ([RestCall.listPRsForCommit ctx.repoOwner ctx.repoRepo ctx.sha],
       .value ⟨ctx.repoOwner, ctx.repoRepo, n⟩) := by
    unfold getPRInfo
    rw [hpush]
    rfl
  refine ⟨_, run_trace sentinel abbrevs defs ctx (n :: rest) affected
    configurations pages fuel _ t2 ⟨ctx.repoOwner, ctx.repoRepo, n⟩ tags
    existing h1 h2 h3, ?_, ?_, ?_⟩
  · simp only [List.countP_append]
    have hzt2 : t2.countP isPRQuery = 0 := by
      have h0 := fetchGo_countP_isPRQuery ctx.repoOwner ctx.repoRepo pages
        fuel 1 []
      rw [h3] at h0
      exact h0
    rw [hzt2, createCallsList_countP_isPRQuery]
    rfl
  · intro c hc hcq
    simp only [List.mem_append] at hc
    rcases hc with ((hc1 | (hc2 | hc3)) | (hc4 | hc5)) | hc6
    · exact List.mem_singleton.mp hc1
    · exact List.mem_singleton.mp hc2
    · have hshape := fetchGo_trace_shape ctx.repoOwner ctx.repoRepo pages
        fuel 1 []
      rw [h3] at hshape
      obtain ⟨q, rfl⟩ := hshape c hc3
      cases hcq
    · exact List.mem_singleton.mp hc4
    · obtain ⟨tg, d, rfl⟩ := createCallsList_shape tags existing defs
        (PRInfo.mk ctx.repoOwner ctx.repoRepo n).owner
        (PRInfo.mk ctx.repoOwner ctx.repoRepo n).repo c hc5
      cases hcq
    · rw [List.mem_singleton.mp hc6] at hcq
      cases hcq
  · exact List.mem_append.mpr (Or.inr (List.mem_singleton.mpr rfl))

/-- Witness for C9's theorem at a concrete completed push-triggered
run. -/
theorem run_push_resolves_context_thrice_witness :
    ∃ t, run "s" [("library", "lib")] []
        ⟨"x", "y", none, "ro", "rr", "s9"⟩ [5] ["p"]
        [("p", ⟨"p", "library", []⟩), ("q", ⟨"q", "library", []⟩)]
        (fun _ => []) 1 = (t, .completed) ∧
      t.countP isPRQuery = 3 ∧
      (∀ c ∈ t, isPRQuery c = true →
        c = RestCall.listPRsForCommit "ro" "rr" "s9") ∧
      RestCall.addLabels "ro" "rr" 5 ["lib:p"] ∈ t :=
  run_push_resolves_context_thrice "s" [("library", "lib")] []
    ⟨"x", "y", none, "ro", "rr", "s9"⟩ [5] ["p"]
    [("p", ⟨"p", "library", []⟩), ("q", ⟨"q", "library", []⟩)] (fun _ => []) 1
    5 [] [RestCall.listLabels "ro" "rr" 1 100] ["lib:p"] [] rfl rfl rfl rfl

/-- C9 counterexample: a concrete completed push-triggered run whose REST
trace holds the associated-PR query three times — more than the single
resolution the claim allows. -/
theorem pr_context_resolved_once_cex :
    (run "s" [("library", "lib")] [] ⟨"x", "y", none, "ro", "rr", "s9"⟩ [5]
        ["p9"] [("p9", ⟨"p9", "library", []⟩), ("q9", ⟨"q9", "library", []⟩)]
        (fun _ => []) 1).2 = .completed ∧
    (run "s" [("library", "lib")] [] ⟨"x", "y", none, "ro", "rr", "s9"⟩ [5]
        ["p9"] [("p9", ⟨"p9", "library", []⟩), ("q9", ⟨"q9", "library", []⟩)]
        (fun _ => []) 1).1.countP isPRQuery = 3 ∧
    ¬ (run "s" [("library", "lib")] [] ⟨"x", "y", none, "ro", "rr", "s9"⟩ [5]
        ["p9"] [("p9", ⟨"p9", "library", []⟩), ("q9", ⟨"q9", "library", []⟩)]
        (fun _ => []) 1).1.countP isPRQuery ≤ 1 := by
  refine ⟨rfl, rfl, by decide⟩
